import Mathlib

/-!
Verification of `main.py` ("curl command conversion tool").

The file shallowly embeds the two functions of the source,
`convert_cookie_format` and `fetch_from_curl`, together with the parts of
the Python standard library they lean on (`json.loads` / `json.dump` and
`re.sub` for the one fixed pattern the source uses).  The external
collaborators (`uncurl.parse_context`, `curl_cffi.requests.request`) are
not code of this repository: they enter as explicit parameters of the
orchestration model, exactly in the role the source gives them.

Modelling notes.
* JSON numbers are integers here: the source never constructs a float and
  floating point is outside the embedding, so a numeric literal with a
  fractional part or an exponent makes the embedded decoder fail where
  Python would build a float.
* Python `str` may hold lone surrogates, Lean `Char` may not; the embedded
  decoder rejects a lone surrogate escape where Python would keep it.  The
  embedded encoder never emits one, so no claim is affected.
* Decoded objects are association lists in source order; Python's `dict`
  would collapse duplicate keys.  No claim depends on duplicate keys.
-/

/-- A JSON value as `json.loads` produces it (numbers restricted to
integers, see the module comment). -/
inductive Json where
  | null
  | bool (b : Bool)
  | int (n : Int)
  | str (s : String)
  | arr (xs : List Json)
  | obj (kvs : List (String × Json))
deriving Repr

/-- The whitespace set of Python's `json` module (`' \t\n\r'`). -/
def wsF (c : Char) : Bool :=
  c.toNat = 32 || c.toNat = 9 || c.toNat = 10 || c.toNat = 13

/-- ASCII decimal digit (what the C scanner of `json` accepts in numbers). -/
def digF (c : Char) : Bool := 48 ≤ c.toNat && c.toNat ≤ 57

/-- Drop JSON whitespace, as the scanner's `_w(s, idx).end()` does. -/
def skipWs (s : List Char) : List Char := s.dropWhile wsF

/-- Lowercase hexadecimal digit character, as `'%04x' % i` prints it. -/
def hexChar (n : Nat) : Char :=
  if n < 10 then Char.ofNat (48 + n) else Char.ofNat (87 + n)

/-- Decimal digit character. -/
def decChar (n : Nat) : Char := Char.ofNat (48 + n)

/-- Decimal digits of `n`, most significant first (fuel-indexed so that it
reduces in the kernel; the fuel is always sufficient at `n + 1`). -/
def natDecAux : Nat → Nat → List Char
  | 0, _ => []
  | f + 1, n =>
    if n < 10 then [decChar n] else natDecAux f (n / 10) ++ [decChar (n % 10)]

/-- Decimal digits of a natural number, as Python's `repr` prints it. -/
def natDec (n : Nat) : List Char := natDecAux (n + 1) n

/-- Decimal form of an integer, as Python's `repr` prints it. -/
def intDec : Int → List Char
  | .ofNat n => natDec n
  | .negSucc m => '-' :: natDec (m + 1)

/-- One character of a string as `json.dump(..., ensure_ascii=False)` emits
it: `"` and `\` and the named control characters get two-character escapes,
the remaining control characters a `\u00xx` escape, everything else
(non-ASCII included) is written literally. -/
def escapeChar (c : Char) : List Char :=
  if c = '"' then ['\\', '"']
  else if c = '\\' then ['\\', '\\']
  else if c.toNat = 8 then ['\\', 'b']
  else if c.toNat = 12 then ['\\', 'f']
  else if c = '\n' then ['\\', 'n']
  else if c = '\r' then ['\\', 'r']
  else if c = '\t' then ['\\', 't']
  else if c.toNat < 32 then
    ['\\', 'u', '0', '0', hexChar (c.toNat / 16), hexChar (c.toNat % 16)]
  else [c]

/-- A string body, escaped. -/
def escapeStr (s : List Char) : List Char := (s.map escapeChar).flatten

/-- A quoted JSON string literal. -/
def quoteStr (s : String) : List Char := '"' :: escapeStr s.data ++ ['"']

/-- `indent` spaces. -/
def sp (n : Nat) : List Char := List.replicate n ' '

mutual

/-- `json.dump(v, f, ensure_ascii=False, indent=2)`, at current indent
`ind`: the exact character stream Python writes. -/
def dumpJ : Nat → Json → List Char
  | _, .null => ['n', 'u', 'l', 'l']
  | _, .bool true => ['t', 'r', 'u', 'e']
  | _, .bool false => ['f', 'a', 'l', 's', 'e']
  | _, .int n => intDec n
  | _, .str s => quoteStr s
  | _, .arr [] => ['[', ']']
  | ind, .arr (x :: xs) =>
    '[' :: '\n' :: sp (ind + 2) ++ dumpJ (ind + 2) x ++ dumpArr (ind + 2) xs
      ++ '\n' :: sp ind ++ [']']
  | _, .obj [] => ['\x7b', '\x7d']
  | ind, .obj ((k, x) :: kvs) =>
    '\x7b' :: '\n' :: sp (ind + 2) ++ quoteStr k ++ ':' :: ' ' ::
      dumpJ (ind + 2) x ++ dumpObj (ind + 2) kvs ++ '\n' :: sp ind ++ ['\x7d']

/-- The remaining array items: `,` then a newline, indent, the item. -/
def dumpArr : Nat → List Json → List Char
  | _, [] => []
  | ind, x :: xs => ',' :: '\n' :: sp ind ++ dumpJ ind x ++ dumpArr ind xs

/-- The remaining object members. -/
def dumpObj : Nat → List (String × Json) → List Char
  | _, [] => []
  | ind, (k, x) :: kvs =>
    ',' :: '\n' :: sp ind ++ quoteStr k ++ ':' :: ' ' :: dumpJ ind x
      ++ dumpObj ind kvs
end

/-- The serialized text `json.dump(v, f, ensure_ascii=False, indent=2)`
writes for `v` (top level, indent 0). -/
def dumps (v : Json) : String := ⟨dumpJ 0 v⟩

/-- Value of one hexadecimal digit, either case. -/
def hexDigitVal (c : Char) : Option Nat :=
  if 48 ≤ c.toNat ∧ c.toNat ≤ 57 then some (c.toNat - 48)
  else if 97 ≤ c.toNat ∧ c.toNat ≤ 102 then some (c.toNat - 87)
  else if 65 ≤ c.toNat ∧ c.toNat ≤ 70 then some (c.toNat - 55)
  else none

/-- Four hexadecimal digits, as in a `\uXXXX` escape. -/
def hexQuad (a b c d : Char) : Option Nat := do
  let x ← hexDigitVal a
  let y ← hexDigitVal b
  let z ← hexDigitVal c
  let w ← hexDigitVal d
  pure (4096 * x + 256 * y + 16 * z + w)

/-- The body of a JSON string after the opening quote, per `py_scanstring`
in strict mode: literal characters up to the closing quote, no raw control
characters, the named escapes, and `\uXXXX` with surrogate pairs combined
(a lone surrogate is rejected here, see the module comment). -/
def unescapeU (h1 h2 h3 h4 : Char) (r3 : List Char) :
    Option (Char × List Char) :=
  match hexQuad h1 h2 h3 h4 with
  | none => none
  | some d =>
    if 0xD800 ≤ d ∧ d ≤ 0xDBFF then
      match r3 with
      | '\\' :: 'u' :: g1 :: g2 :: g3 :: g4 :: r4 =>
        (match hexQuad g1 g2 g3 g4 with
         | some d2 =>
           if 0xDC00 ≤ d2 ∧ d2 ≤ 0xDFFF then
             some (Char.ofNat (0x10000 + (d - 0xD800) * 0x400 + (d2 - 0xDC00)), r4)
           else none
         | none => none)
      | _ => none
    else if 0xDC00 ≤ d ∧ d ≤ 0xDFFF then none
    else some (Char.ofNat d, r3)

/-- One escape after the backslash: the decoded character and the rest. -/
def unescapeHead : List Char → Option (Char × List Char)
  | [] => none
  | e :: r =>
    if e = '"' then some ('"', r)
    else if e = '\\' then some ('\\', r)
    else if e = '/' then some ('/', r)
    else if e = 'b' then some (Char.ofNat 8, r)
    else if e = 'f' then some (Char.ofNat 12, r)
    else if e = 'n' then some ('\n', r)
    else if e = 'r' then some ('\r', r)
    else if e = 't' then some ('\t', r)
    else if e = 'u' then
      match r with
      | h1 :: h2 :: h3 :: h4 :: r3 => unescapeU h1 h2 h3 h4 r3
      | _ => none
    else none

/-- The scan loop of the string body (fuel-indexed; one unit per decoded
character, so the input length is always enough fuel). -/
def parseStrAux : Nat → List Char → Option (List Char × List Char)
  | 0, _ => none
  | _ + 1, [] => none
  | f + 1, c :: r =>
    if c = '"' then some ([], r)
    else if c = '\\' then
      match unescapeHead r with
      | some (d, r2) => (parseStrAux f r2).map fun p => (d :: p.1, p.2)
      | none => none
    else if c.toNat < 32 then none
    else (parseStrAux f r).map fun p => (c :: p.1, p.2)

def parseStringRest (s : List Char) : Option (List Char × List Char) :=
  parseStrAux s.length s

/-- Digit run value, most significant first. -/
def decValue (ds : List Char) : Nat :=
  ds.foldl (fun a c => 10 * a + (c.toNat - 48)) 0

/-- The integer part of `json`'s number regex `0|[1-9]\d*`: a lone `0`
stops even before further digits, a nonzero number takes the whole run. -/
def parseUInt (s : List Char) : Option (Nat × List Char) :=
  match s with
  | [] => none
  | c :: r =>
    if c = '0' then some (0, r)
    else if digF c then
      some (decValue (c :: r.takeWhile digF), r.dropWhile digF)
    else none

/-- Whether the characters after an integer part would extend the number
regex into a float (`.` fraction or `e`/`E` exponent). -/
def fracHead : List Char → Bool
  | [] => false
  | c :: _ => c = '.' || c = 'e' || c = 'E'

/-- A JSON number, restricted to the integers (a match of the fraction or
exponent part would make a Python float: outside the embedding, so `none`
here). -/
def parseNumber (s : List Char) : Option (Json × List Char) :=
  match s with
  | [] => none
  | c :: r =>
    if c = '-' then
      match parseUInt r with
      | some (n, rest) =>
        if fracHead rest then none else some (.int (-(n : Int)), rest)
      | none => none
    else
      match parseUInt (c :: r) with
      | some (n, rest) =>
        if fracHead rest then none else some (.int (n : Int), rest)
      | none => none

mutual

/-- One JSON value at the current position (no leading whitespace: callers
skip it first, as `py_make_scanner` does).  Fuel-indexed; every recursive
step consumes fuel, and `loads` supplies enough for its whole input. -/
def parseValue : Nat → List Char → Option (Json × List Char)
  | 0, _ => none
  | fuel + 1, s =>
    match s with
    | [] => none
    | c :: r =>
      if c = 'n' then
        match r with
        | 'u' :: 'l' :: 'l' :: r2 => some (.null, r2)
        | _ => none
      else if c = 't' then
        match r with
        | 'r' :: 'u' :: 'e' :: r2 => some (.bool true, r2)
        | _ => none
      else if c = 'f' then
        match r with
        | 'a' :: 'l' :: 's' :: 'e' :: r2 => some (.bool false, r2)
        | _ => none
      else if c = '"' then
        (parseStringRest r).map fun p => (.str ⟨p.1⟩, p.2)
      else if c = '[' then
        match skipWs r with
        | [] => none
        | c1 :: r1 =>
          if c1 = ']' then some (.arr [], r1)
          else (parseArrItems fuel (c1 :: r1)).map fun p => (.arr p.1, p.2)
      else if c = '\x7b' then
        match skipWs r with
        | [] => none
        | c1 :: r1 =>
          if c1 = '\x7d' then some (.obj [], r1)
          else (parseObjItems fuel (c1 :: r1)).map fun p => (.obj p.1, p.2)
      else parseNumber (c :: r)

/-- One-or-more comma-separated array items, positioned at an item. -/
def parseArrItems : Nat → List Char → Option (List Json × List Char)
  | 0, _ => none
  | fuel + 1, s =>
    match parseValue fuel s with
    | none => none
    | some (v, r) =>
      match skipWs r with
      | [] => none
      | c :: r2 =>
        if c = ',' then
          match parseArrItems fuel (skipWs r2) with
          | some (vs, r3) => some (v :: vs, r3)
          | none => none
        else if c = ']' then some ([v], r2)
        else none

/-- One-or-more comma-separated object members, positioned at a key. -/
def parseObjItems : Nat → List Char → Option (List (String × Json) × List Char)
  | 0, _ => none
  | fuel + 1, s =>
    match s with
    | [] => none
    | c :: r =>
      if c = '"' then
        match parseStringRest r with
        | none => none
        | some (k, r1) =>
          match skipWs r1 with
          | [] => none
          | c1 :: r2 =>
            if c1 = ':' then
              match parseValue fuel (skipWs r2) with
              | none => none
              | some (v, r3) =>
                match skipWs r3 with
                | [] => none
                | c2 :: r4 =>
                  if c2 = ',' then
                    match parseObjItems fuel (skipWs r4) with
                    | some (kvs, r5) => some ((⟨k⟩, v) :: kvs, r5)
                    | none => none
                  else if c2 = '\x7d' then some ([(⟨k⟩, v)], r4)
                  else none
            else none
      else none
end

/-- `json.loads`: skip leading whitespace, one value, skip trailing
whitespace, and the input must be exhausted; `none` where Python raises
`JSONDecodeError` (and for the float and lone-surrogate cases outside the
embedding, see the module comment). -/
def loads (s : String) : Option Json :=
  let cs := skipWs s.data
  match parseValue (cs.length + 1) cs with
  | some (v, r) => if skipWs r = [] then some v else none
  | none => none

/-!
The cookie-format normalizer of `main.py`:
`re.sub(pattern, replace_func, curl_command)` with
`pattern = (-b|--cookie)\s*=?\s*([...])(.*?)\2` (the character class holds
the two quote characters) and
`replace_func` returning `-H {quote}Cookie: {value}{quote}`.
The scan below mirrors `re.sub`: leftmost match, non-overlapping, resuming
after each replacement. At one position the pattern is deterministic: the
alternatives `-b` / `--cookie` cannot both match, `\s* =? \s*` consumes
from three pairwise disjoint character classes, and the non-greedy `(.*?)\2`
ends at the first occurrence of the opening quote (with `.` not crossing a
newline, as `re.DOTALL` is off).
-/

/-- Python's `\s` on a `str` pattern: the Unicode whitespace class. -/
def pyWs (c : Char) : Bool :=
  let n := c.toNat
  n = 32 || (9 ≤ n && n ≤ 13) || (28 ≤ n && n ≤ 31) || n = 0x85 || n = 0xa0 ||
    n = 0x1680 || (0x2000 ≤ n && n ≤ 0x200a) || n = 0x2028 || n = 0x2029 ||
    n = 0x202f || n = 0x205f || n = 0x3000

/-- The alternation `(-b|--cookie)` at the current position: the rest of
the input after the flag, or `none`. -/
def matchFlag : List Char → Option (List Char)
  | '-' :: 'b' :: r => some r
  | '-' :: '-' :: 'c' :: 'o' :: 'o' :: 'k' :: 'i' :: 'e' :: r => some r
  | _ => none

/-- The non-greedy `(.*?)\2` given the opening quote `q`: the value up to
the first `q`, failing on a newline (`.` does not match one) or when no
closing quote remains. -/
def scanVal (q : Char) : List Char → Option (List Char × List Char)
  | [] => none
  | c :: r =>
    if c = q then some ([], r)
    else if c = '\n' then none
    else (scanVal q r).map fun p => (c :: p.1, p.2)

/-- After the flag: `\s* =? \s*`, then the quote (captured), then the
value. Yields `(quote, value, rest after the closing quote)`. -/
def matchAfterFlag (s : List Char) : Option (Char × List Char × List Char) :=
  let s1 := s.dropWhile pyWs
  let s2 := match s1 with
    | c :: t => if c = '=' then t else s1
    | [] => s1
  let s3 := s2.dropWhile pyWs
  match s3 with
  | q :: t =>
    if q = '\'' ∨ q = '"' then
      (scanVal q t).map fun p => (q, p.1, p.2)
    else none
  | [] => none

/-- One attempt of the whole pattern at the current position. -/
def tryMatchAt (s : List Char) : Option (Char × List Char × List Char) :=
  (matchFlag s).bind matchAfterFlag

/-- `replace_func`: `-H {quote}Cookie: {value}{quote}`. -/
def cookieRepl (q : Char) (v : List Char) : List Char :=
  '-' :: 'H' :: ' ' :: q :: 'C' :: 'o' :: 'o' :: 'k' :: 'i' :: 'e' :: ':' ::
    ' ' :: v ++ [q]

/-- The `re.sub` scan: try the pattern at each position left to right; on a
match emit the replacement and resume after the matched text. Fuel-indexed
(one unit per scanned position suffices, every match consumes at least four
characters); at fuel 0 the remaining input is emitted unchanged. -/
def subCookieAux : Nat → List Char → List Char
  | 0, s => s
  | _ + 1, [] => []
  | f + 1, c :: rest =>
    match tryMatchAt (c :: rest) with
    | some (q, v, rem) => cookieRepl q v ++ subCookieAux f rem
    | none => c :: subCookieAux f rest

/-- `convert_cookie_format` of `main.py`. -/
def convert_cookie_format (s : String) : String :=
  ⟨subCookieAux s.data.length s.data⟩

/-- Whether the pattern matches anywhere in the text (whether `re.sub`
would rewrite anything). -/
def hasCookieMatch : List Char → Bool
  | [] => false
  | c :: rest => (tryMatchAt (c :: rest)).isSome || hasCookieMatch rest

/-!
The orchestration step `fetch_from_curl`. The two external collaborators
are parameters: `parse` stands for `uncurl.parse_context` (returning `none`
where the library raises), and `transport` for
`curl_cffi.requests.request` (a `TransportOutcome.netErr` where the call
raises `RequestException`, a `TransportOutcome.resp` where it returns a
response). `raise_for_status` turns a non-2xx response into the caught
error path, per the source's comment on it.
-/

/-- What `uncurl.parse_context` hands back (`parsed.headers` and
`parsed.cookies` may be absent, mirroring `parsed.headers or {}`). -/
structure ParsedContext where
  url : String
  method : Option String
  headers : Option (List (String × String))
  cookies : Option (List (String × String))
  data : Option String

/-- The keyword arguments `fetch_from_curl` passes to
`requests.request`. -/
structure RequestParams where
  method : String
  url : String
  headers : List (String × String)
  cookies : List (String × String)
  json_data : Option Json
  form_data : Option String
  impersonate : String
  timeout : Nat

/-- What the transport call does: a response (any status), or a raised
`RequestException` carrying an optional response text (`e.response`). -/
inductive TransportOutcome where
  | resp (status : Nat) (body : String)
  | netErr (msg : String) (respText : Option String)

/-- Everything observable of one `fetch_from_curl` invocation: the return
value, the one transport call made (if any), the file written (path and
full contents, if any), and the diagnostic print lines that matter to the
claims. -/
structure FetchResult where
  retVal : Option Json
  requested : Option RequestParams
  written : Option (String × String)
  diag : List String

/-- Step 2 of the source: `json_data`/`form_data` from `parsed.data`. An
absent or falsy (empty) body yields neither; otherwise a successful
`json.loads` yields the JSON payload, a failing one the raw payload. -/
def classifyBody (data : Option String) : Option Json × Option String :=
  match data with
  | none => (none, none)
  | some s =>
    if s = "" then (none, none)
    else
      match loads s with
      | some j => (some j, none)
      | none => (none, some s)

/-- `parsed.method or 'GET'` (Python `or`: `None` and `""` are falsy). -/
def resolveMethod : Option String → String
  | none => "GET"
  | some m => if m = "" then "GET" else m

/-- The request `fetch_from_curl` builds from the parse result (steps 2
and 3 of the source). -/
def buildRequest (p : ParsedContext) : RequestParams :=
  { method := resolveMethod p.method
    url := p.url
    headers := p.headers.getD []
    cookies := p.cookies.getD []
    json_data := (classifyBody p.data).1
    form_data := (classifyBody p.data).2
    impersonate := "chrome110"
    timeout := 30 }

/-- Whether `raise_for_status` passes (2xx, per the source's comment). -/
def http2xx (status : Nat) : Bool := 200 ≤ status && status < 300

/-- `fetch_from_curl(curl_command, output_file="output.json")`: parse,
classify the body, issue the transport call, normalize the response, write
the file; every failure is caught and becomes a `none` return with a
diagnostic line (the error handlers of the source). -/
def fetch_from_curl (parse : String → Option ParsedContext)
    (transport : RequestParams → TransportOutcome)
    (curl_command : String) (output_file : String := "output.json") :
    FetchResult :=
  match parse curl_command with
  | none =>
    { retVal := none, requested := none, written := none
      diag := ["error: parse failed"] }
  | some parsed =>
    let req := buildRequest parsed
    match transport req with
    | .netErr msg respText =>
      { retVal := none, requested := some req, written := none
        diag := ("request failed: " ++ msg) ::
          (match respText with
           | some t => ["response text (first 500): " ++ t.take 500]
           | none => []) }
    | .resp status body =>
      if http2xx status then
        let result_data :=
          match loads body with
          | some j => j
          | none => Json.obj [("content", .str body), ("status_code", .int status)]
        { retVal := some result_data, requested := some req
          written := some (output_file, dumps result_data)
          diag := ["saved to " ++ output_file] }
      else
        { retVal := none, requested := some req, written := none
          diag := ["request failed: HTTP " ++ ⟨natDec status⟩,
                   "response text (first 500): " ++ body.take 500] }

/-!  Basic character-class facts. -/

theorem decChar_spec (n : Nat) (h : n < 10) :
    (decChar n).toNat = 48 + n ∧ digF (decChar n) = true ∧
      (n ≠ 0 → decChar n ≠ '0') := by
  interval_cases n <;> refine ⟨by decide, by decide, fun h2 => ?_⟩ <;>
    first
    | exact absurd rfl h2
    | decide

theorem digF_bounds {c : Char} (h : digF c = true) :
    48 ≤ c.toNat ∧ c.toNat ≤ 57 := by
  simpa [digF] using h

theorem digF_wsF {c : Char} (h : digF c = true) : wsF c = false := by
  have hb := digF_bounds h
  simp only [wsF, Bool.or_eq_false_iff, decide_eq_false_iff_not]
  omega

theorem digF_ne {c : Char} (h : digF c = true) {d : Char}
    (hd : d.toNat < 48 ∨ 57 < d.toNat) : c ≠ d := by
  intro he
  have hb := digF_bounds h
  subst he
  omega

theorem wsF_sp : wsF ' ' = true := by decide

theorem skipWs_cons_false {c : Char} (h : wsF c = false) (t : List Char) :
    skipWs (c :: t) = c :: t := by
  simp [skipWs, List.dropWhile_cons, h]

theorem skipWs_nl (t : List Char) : skipWs ('\n' :: t) = skipWs t := rfl

theorem skipWs_sp (n : Nat) (t : List Char) :
    skipWs (sp n ++ t) = skipWs t := by
  induction n with
  | zero => rfl
  | succ n ih =>
    simpa [sp, List.replicate_succ, skipWs, List.dropWhile_cons] using ih

/-!  The decimal printer is inverted by the number scanner. -/

theorem natDecAux_ne_nil (f n : Nat) (h : n < f) : natDecAux f n ≠ [] := by
  cases f with
  | zero => omega
  | succ f =>
    unfold natDecAux
    split <;> simp

theorem natDecAux_digits : ∀ f n, n < f → ∀ c ∈ natDecAux f n, digF c = true := by
  intro f
  induction f with
  | zero => omega
  | succ f ih =>
    intro n h c hc
    unfold natDecAux at hc
    by_cases h10 : n < 10
    · rw [if_pos h10] at hc
      rcases List.mem_singleton.mp hc with rfl
      exact (decChar_spec n h10).2.1
    · rw [if_neg h10] at hc
      rcases List.mem_append.mp hc with h1 | h1
      · have hdiv : n / 10 < n := Nat.div_lt_self (by omega) (by omega)
        exact ih (n / 10) (by omega) c h1
      · rcases List.mem_singleton.mp h1 with rfl
        exact (decChar_spec (n % 10) (Nat.mod_lt _ (by omega))).2.1

theorem decValue_append_last (xs : List Char) (c : Char) :
    decValue (xs ++ [c]) = 10 * decValue xs + (c.toNat - 48) := by
  simp [decValue, List.foldl_append]

theorem natDecAux_decValue : ∀ f n, n < f → decValue (natDecAux f n) = n := by
  intro f
  induction f with
  | zero => omega
  | succ f ih =>
    intro n h
    unfold natDecAux
    by_cases h10 : n < 10
    · rw [if_pos h10]
      have := (decChar_spec n h10).1
      simp [decValue, this]
    · rw [if_neg h10]
      have hdiv : n / 10 < n := Nat.div_lt_self (by omega) (by omega)
      rw [decValue_append_last, ih (n / 10) (by omega),
        (decChar_spec (n % 10) (Nat.mod_lt _ (by omega))).1]
      omega

theorem natDecAux_head : ∀ f n, n < f → n ≠ 0 →
    ∃ c t, natDecAux f n = c :: t ∧ c ≠ '0' ∧ digF c = true := by
  intro f
  induction f with
  | zero => omega
  | succ f ih =>
    intro n h h0
    unfold natDecAux
    by_cases h10 : n < 10
    · rw [if_pos h10]
      exact ⟨decChar n, [], rfl, (decChar_spec n h10).2.2 h0,
        (decChar_spec n h10).2.1⟩
    · rw [if_neg h10]
      have hdiv : n / 10 < n := Nat.div_lt_self (by omega) (by omega)
      obtain ⟨c, t, heq, hc0, hcd⟩ :=
        ih (n / 10) (by omega) (by omega)
      exact ⟨c, t ++ [decChar (n % 10)], by rw [heq]; rfl, hc0, hcd⟩

theorem natDec_cons (n : Nat) :
    ∃ c t, natDec n = c :: t ∧ digF c = true := by
  rcases h : natDec n with _ | ⟨c, t⟩
  · exact absurd h (natDecAux_ne_nil (n + 1) n (by omega))
  · have hmem : c ∈ natDec n := h ▸ List.mem_cons_self ..
    exact ⟨c, t, rfl, natDecAux_digits (n + 1) n (by omega) c hmem⟩

/-- `takeWhile`/`dropWhile` on a run of `p`-true characters followed by a
stopper. -/
theorem takeDrop_run {p : Char → Bool} :
    ∀ (xs ys : List Char), (∀ c ∈ xs, p c = true) →
      (∀ c, ys.head? = some c → p c = false) →
      (xs ++ ys).takeWhile p = xs ∧ (xs ++ ys).dropWhile p = ys := by
  intro xs
  induction xs with
  | nil =>
    intro ys _ hy
    cases ys with
    | nil => exact ⟨rfl, rfl⟩
    | cons c t =>
      simp [List.takeWhile_cons, List.dropWhile_cons, hy c rfl]
  | cons x xs ih =>
    intro ys hx hy
    have hpx : p x = true := hx x (List.mem_cons_self ..)
    have := ih ys (fun c hc => hx c (List.mem_cons_of_mem _ hc)) hy
    simp [List.takeWhile_cons, List.dropWhile_cons, hpx, this.1, this.2]

/-- Remainders that cannot extend a number: empty, or headed by no digit
and none of `.`, `e`, `E` (every delimiter the serializer emits
qualifies). -/
def numSafe : List Char → Prop
  | [] => True
  | c :: _ => digF c = false ∧ c ≠ '.' ∧ c ≠ 'e' ∧ c ≠ 'E'

theorem fracHead_of_numSafe {rest : List Char} (h : numSafe rest) :
    fracHead rest = false := by
  cases rest with
  | nil => rfl
  | cons c t =>
    obtain ⟨-, h2, h3, h4⟩ := h
    simp [fracHead, h2, h3, h4]

theorem numSafe_head {rest : List Char} (h : numSafe rest) (c : Char)
    (hc : rest.head? = some c) : digF c = false := by
  cases rest with
  | nil => cases hc
  | cons x t =>
    cases hc
    exact h.1

theorem parseUInt_natDec (n : Nat) (rest : List Char)
    (hrest : ∀ c, rest.head? = some c → digF c = false) :
    parseUInt (natDec n ++ rest) = some (n, rest) := by
  by_cases h0 : n = 0
  · subst h0
    have h1 : natDec 0 = ['0'] := by decide
    rw [h1]
    simp [parseUInt]
  · obtain ⟨c, t, heq, hc0, hcd⟩ := natDecAux_head (n + 1) n (by omega) h0
    have htd : ∀ x ∈ t, digF x = true := fun x hx =>
      natDecAux_digits (n + 1) n (by omega) x (heq ▸ List.mem_cons_of_mem _ hx)
    obtain ⟨htake, hdrop⟩ := takeDrop_run t rest htd hrest
    have hdv : decValue (c :: t) = n := by
      rw [← heq]
      exact natDecAux_decValue (n + 1) n (by omega)
    have heq' : natDec n = c :: t := heq
    rw [heq']
    simp only [List.cons_append, parseUInt, if_neg hc0, hcd, if_true, htake,
      hdrop, hdv]

theorem parseNumber_intDec (i : Int) (rest : List Char) (h : numSafe rest) :
    parseNumber (intDec i ++ rest) = some (.int i, rest) := by
  have hrest : ∀ c, rest.head? = some c → digF c = false := numSafe_head h
  have hfrac := fracHead_of_numSafe h
  cases i with
  | ofNat n =>
    obtain ⟨c, t, heq, hcd⟩ := natDec_cons n
    have hcm : c ≠ '-' := digF_ne hcd (by left; decide)
    have key := parseUInt_natDec n rest hrest
    rw [heq] at key
    show parseNumber (natDec n ++ rest) = some (.int (Int.ofNat n), rest)
    rw [heq]
    simp only [List.cons_append] at key ⊢
    simp only [parseNumber, if_neg hcm, key, hfrac, Bool.false_eq_true,
      if_false, Int.ofNat_eq_coe]
  | negSucc m =>
    show parseNumber (('-' :: natDec (m + 1)) ++ rest)
      = some (.int (Int.negSucc m), rest)
    simp only [List.cons_append, parseNumber, if_pos rfl,
      parseUInt_natDec (m + 1) rest hrest, hfrac, Bool.false_eq_true, if_false]
    have h1 : -((m + 1 : Nat) : Int) = Int.negSucc m := by
      rw [Int.negSucc_eq]
      omega
    rw [h1]
    simp

/-!  The string escaper is inverted by the string scanner. -/

theorem hexDigitVal_hexChar (d : Nat) (h : d < 16) :
    hexDigitVal (hexChar d) = some d := by
  interval_cases d <;> decide

theorem escapeChar_ne_nil (c : Char) : 1 ≤ (escapeChar c).length := by
  unfold escapeChar
  repeat' split
  all_goals simp

theorem length_le_escapeStr (s : List Char) : s.length ≤ (escapeStr s).length := by
  induction s with
  | nil => simp [escapeStr]
  | cons c cs ih =>
    have h1 := escapeChar_ne_nil c
    simp only [escapeStr, List.map_cons, List.flatten_cons, List.length_append,
      List.length_cons]
    simp only [escapeStr] at ih
    omega

theorem parseStrAux_escape : ∀ (s : List Char) (f : Nat) (rest : List Char),
    s.length < f → parseStrAux f (escapeStr s ++ '"' :: rest) = some (s, rest) := by
  intro s
  induction s with
  | nil =>
    intro f rest hf
    cases f with
    | zero => omega
    | succ f => simp [escapeStr, parseStrAux]
  | cons c cs ih =>
    intro f rest hf
    cases f with
    | zero => omega
    | succ f =>
    have hlen : cs.length < f := by
      simp only [List.length_cons] at hf
      omega
    have hih := ih f (rest) hlen
    have hstep : escapeStr (c :: cs) ++ '"' :: rest
        = escapeChar c ++ (escapeStr cs ++ '"' :: rest) := by
      simp [escapeStr, List.append_assoc]
    rw [hstep]
    by_cases h1 : c = '"'
    · subst h1
      simp [escapeChar, parseStrAux, unescapeHead, hih]
    · by_cases h2 : c = '\\'
      · subst h2
        simp [escapeChar, parseStrAux, unescapeHead, hih]
      · by_cases h3 : c.toNat = 8
        · have hc : c = Char.ofNat 8 := by rw [← h3, Char.ofNat_toNat]
          rw [show escapeChar c = ['\\', 'b'] from by
            rw [escapeChar, if_neg h1, if_neg h2, if_pos h3]]
          simp [parseStrAux, unescapeHead, hih, hc]
        · by_cases h4 : c.toNat = 12
          · have hc : c = Char.ofNat 12 := by rw [← h4, Char.ofNat_toNat]
            rw [show escapeChar c = ['\\', 'f'] from by
              rw [escapeChar, if_neg h1, if_neg h2, if_neg h3, if_pos h4]]
            simp [parseStrAux, unescapeHead, hih, hc]
          · by_cases h5 : c = '\n'
            · subst h5
              simp [escapeChar, parseStrAux, unescapeHead, hih]
            · by_cases h6 : c = '\r'
              · subst h6
                simp [escapeChar, parseStrAux, unescapeHead, hih]
              · by_cases h7 : c = '\t'
                · subst h7
                  simp [escapeChar, parseStrAux, unescapeHead, hih]
                · by_cases h8 : c.toNat < 32
                  · have hmod : c.toNat % 16 < 16 := Nat.mod_lt _ (by omega)
                    have hq : hexQuad '0' '0' (hexChar (c.toNat / 16))
                        (hexChar (c.toNat % 16)) = some c.toNat := by
                      simp [hexQuad,
                        hexDigitVal_hexChar _ (show c.toNat / 16 < 16 by omega),
                        hexDigitVal_hexChar _ hmod,
                        show hexDigitVal '0' = some 0 from by decide]
                      omega
                    have hs1 : ¬(0xD800 ≤ c.toNat ∧ c.toNat ≤ 0xDBFF) := by
                      omega
                    have hs2 : ¬(0xDC00 ≤ c.toNat ∧ c.toNat ≤ 0xDFFF) := by
                      omega
                    rw [show escapeChar c = ['\\', 'u', '0', '0',
                        hexChar (c.toNat / 16), hexChar (c.toNat % 16)] from by
                      rw [escapeChar, if_neg h1, if_neg h2, if_neg h3, if_neg h4,
                        if_neg h5, if_neg h6, if_neg h7, if_pos h8]]
                    simp [parseStrAux, unescapeHead, unescapeU, hq, hs1, hs2,
                      hih, Char.ofNat_toNat]
                  · rw [show escapeChar c = [c] from by
                      rw [escapeChar, if_neg h1, if_neg h2, if_neg h3, if_neg h4,
                        if_neg h5, if_neg h6, if_neg h7, if_neg h8]]
                    simp [parseStrAux, h1, h2, h8, hih]

theorem parseStringRest_escape (s rest : List Char) :
    parseStringRest (escapeStr s ++ '"' :: rest) = some (s, rest) := by
  have h1 := length_le_escapeStr s
  apply parseStrAux_escape
  simp only [List.length_append, List.length_cons]
  omega

/-!  First-character facts of the serializer's output. -/

theorem string_mk_data (s : String) : (⟨s.data⟩ : String) = s := rfl

theorem dumpJ_cons (ind : Nat) (v : Json) :
    ∃ c t, dumpJ ind v = c :: t ∧ wsF c = false ∧ c ≠ ']' ∧ c ≠ '\x7d' := by
  cases v with
  | int n =>
    rcases n with m | m
    · obtain ⟨c, t, heq, hcd⟩ := natDec_cons m
      refine ⟨c, t, heq, digF_wsF hcd, ?_, ?_⟩
      · exact digF_ne hcd (by right; decide)
      · exact digF_ne hcd (by right; decide)
    · exact ⟨'-', natDec (m + 1), rfl, by decide⟩
  | null => exact ⟨'n', ['u', 'l', 'l'], rfl, by decide⟩
  | bool b => rcases b with - | - <;> exact ⟨_, _, rfl, by decide⟩
  | str s => exact ⟨'"', escapeStr s.data ++ ['"'], rfl, by decide⟩
  | arr xs => rcases xs with - | ⟨y, ys⟩ <;> exact ⟨'[', _, rfl, by decide⟩
  | obj kvs =>
    rcases kvs with - | ⟨⟨k, y⟩, t⟩ <;> exact ⟨'\x7b', _, rfl, by decide⟩

theorem skipWs_dumpJ (ind : Nat) (v : Json) (x : List Char) :
    skipWs (dumpJ ind v ++ x) = dumpJ ind v ++ x := by
  obtain ⟨c, t, heq, hws, -, -⟩ := dumpJ_cons ind v
  rw [heq, List.cons_append, skipWs_cons_false hws]

theorem skipWs_comma (l : List Char) : skipWs (',' :: l) = ',' :: l :=
  skipWs_cons_false (by decide) l

theorem skipWs_rbracket (l : List Char) : skipWs (']' :: l) = ']' :: l :=
  skipWs_cons_false (by decide) l

theorem skipWs_rbrace (l : List Char) : skipWs ('\x7d' :: l) = '\x7d' :: l :=
  skipWs_cons_false (by decide) l

theorem skipWs_colon (l : List Char) : skipWs (':' :: l) = ':' :: l :=
  skipWs_cons_false (by decide) l

theorem skipWs_space (l : List Char) : skipWs (' ' :: l) = skipWs l := rfl

theorem skipWs_quote (l : List Char) : skipWs ('"' :: l) = '"' :: l :=
  skipWs_cons_false (by decide) l

theorem numSafe_dumpArr (i : Nat) (xs : List Json) (j : Nat) (rest : List Char) :
    numSafe (dumpArr i xs ++ '\n' :: sp j ++ ']' :: rest) := by
  cases xs with
  | nil => exact ⟨by decide, by decide, by decide, by decide⟩
  | cons y ys => exact ⟨by decide, by decide, by decide, by decide⟩

theorem numSafe_dumpObj (i : Nat) (kvs : List (String × Json)) (j : Nat)
    (rest : List Char) :
    numSafe (dumpObj i kvs ++ '\n' :: sp j ++ '\x7d' :: rest) := by
  cases kvs with
  | nil => exact ⟨by decide, by decide, by decide, by decide⟩
  | cons kv ys =>
    obtain ⟨k, x⟩ := kv
    exact ⟨by decide, by decide, by decide, by decide⟩

/-!  Step lemmas: how `parseValue` consumes each serialized head. -/

theorem parseValue_null (f : Nat) (rest : List Char) :
    parseValue (f + 1) ('n' :: 'u' :: 'l' :: 'l' :: rest) = some (.null, rest) := by
  simp [parseValue]

theorem parseValue_true (f : Nat) (rest : List Char) :
    parseValue (f + 1) ('t' :: 'r' :: 'u' :: 'e' :: rest)
      = some (.bool true, rest) := by
  simp [parseValue]

theorem parseValue_false (f : Nat) (rest : List Char) :
    parseValue (f + 1) ('f' :: 'a' :: 'l' :: 's' :: 'e' :: rest)
      = some (.bool false, rest) := by
  simp [parseValue]

theorem parseValue_str (f : Nat) (s : String) (rest : List Char) :
    parseValue (f + 1) (quoteStr s ++ rest) = some (.str s, rest) := by
  have harg : quoteStr s ++ rest = '"' :: (escapeStr s.data ++ '"' :: rest) := by
    simp [quoteStr]
  rw [harg]
  simp [parseValue, parseStringRest_escape, string_mk_data]

theorem parseValue_int (f : Nat) (n : Int) (rest : List Char)
    (hrest : numSafe rest) :
    parseValue (f + 1) (intDec n ++ rest) = some (.int n, rest) := by
  have key := parseNumber_intDec n rest hrest
  cases n with
  | ofNat m =>
    obtain ⟨c, t, heq, hcd⟩ := natDec_cons m
    have heq' : intDec (Int.ofNat m) = c :: t := heq
    rw [heq'] at key ⊢
    rw [List.cons_append] at key ⊢
    have hb := digF_bounds hcd
    simp only [parseValue,
      if_neg (digF_ne hcd (by right; decide) : c ≠ 'n'),
      if_neg (digF_ne hcd (by right; decide) : c ≠ 't'),
      if_neg (digF_ne hcd (by right; decide) : c ≠ 'f'),
      if_neg (digF_ne hcd (by left; decide) : c ≠ '"'),
      if_neg (digF_ne hcd (by right; decide) : c ≠ '['),
      if_neg (digF_ne hcd (by right; decide) : c ≠ '\x7b')]
    exact key
  | negSucc m =>
    rw [show intDec (Int.negSucc m) = '-' :: natDec (m + 1) from rfl] at key ⊢
    rw [List.cons_append] at key ⊢
    simp only [parseValue, reduceIte]
    exact key

theorem parseValue_arrNil (f : Nat) (rest : List Char) :
    parseValue (f + 1) ('[' :: ']' :: rest) = some (.arr [], rest) := by
  simp [parseValue, skipWs_cons_false (by decide : wsF ']' = false)]

theorem parseValue_objNil (f : Nat) (rest : List Char) :
    parseValue (f + 1) ('\x7b' :: '\x7d' :: rest) = some (.obj [], rest) := by
  simp [parseValue, skipWs_cons_false (by decide : wsF '\x7d' = false)]

theorem parseValue_arrStep (f : Nat) (x : Json) (xs : List Json) (i j : Nat)
    (L : List Char) :
    parseValue (f + 1)
        ('[' :: '\n' :: sp i ++ (dumpJ i x ++ (dumpArr i xs ++ '\n' :: sp j ++ ']' :: L)))
      = (parseArrItems f (dumpJ i x ++ (dumpArr i xs ++ '\n' :: sp j ++ ']' :: L))).map
          fun p => (Json.arr p.1, p.2) := by
  obtain ⟨c, t, heq, hws, hbr, -⟩ := dumpJ_cons i x
  have hskip : skipWs ('\n' :: sp i ++ (dumpJ i x ++ (dumpArr i xs ++ '\n' :: sp j ++ ']' :: L)))
      = dumpJ i x ++ (dumpArr i xs ++ '\n' :: sp j ++ ']' :: L) := by
    rw [List.cons_append, skipWs_nl, skipWs_sp, skipWs_dumpJ]
  simp only [parseValue, reduceIte, List.cons_append]
  rw [show ('\n' :: (sp i ++ (dumpJ i x ++ (dumpArr i xs ++ '\n' :: sp j ++ ']' :: L))))
      = '\n' :: sp i ++ (dumpJ i x ++ (dumpArr i xs ++ '\n' :: sp j ++ ']' :: L)) from by
    simp [List.cons_append]]
  rw [hskip, heq]
  simp [hbr]

theorem parseValue_objStep (f : Nat) (k : String) (x : Json)
    (kvs : List (String × Json)) (i j : Nat) (L : List Char) :
    parseValue (f + 1)
        ('\x7b' :: '\n' :: sp i ++ (quoteStr k ++ ':' :: ' ' ::
          (dumpJ i x ++ (dumpObj i kvs ++ '\n' :: sp j ++ '\x7d' :: L))))
      = (parseObjItems f (quoteStr k ++ ':' :: ' ' ::
            (dumpJ i x ++ (dumpObj i kvs ++ '\n' :: sp j ++ '\x7d' :: L)))).map
          fun p => (Json.obj p.1, p.2) := by
  have hskip : skipWs ('\n' :: sp i ++ (quoteStr k ++ ':' :: ' ' ::
        (dumpJ i x ++ (dumpObj i kvs ++ '\n' :: sp j ++ '\x7d' :: L))))
      = quoteStr k ++ ':' :: ' ' ::
          (dumpJ i x ++ (dumpObj i kvs ++ '\n' :: sp j ++ '\x7d' :: L)) := by
    rw [List.cons_append, skipWs_nl, skipWs_sp]
    rw [show quoteStr k ++ ':' :: ' ' ::
          (dumpJ i x ++ (dumpObj i kvs ++ '\n' :: sp j ++ '\x7d' :: L))
        = '"' :: (escapeStr k.data ++ ['"'] ++ ':' :: ' ' ::
            (dumpJ i x ++ (dumpObj i kvs ++ '\n' :: sp j ++ '\x7d' :: L))) from by
      simp [quoteStr]]
    exact skipWs_cons_false (by decide) _
  simp only [parseValue, reduceIte, List.cons_append]
  rw [show ('\n' :: (sp i ++ (quoteStr k ++ ':' :: ' ' ::
        (dumpJ i x ++ (dumpObj i kvs ++ '\n' :: sp j ++ '\x7d' :: L)))))
      = '\n' :: sp i ++ (quoteStr k ++ ':' :: ' ' ::
        (dumpJ i x ++ (dumpObj i kvs ++ '\n' :: sp j ++ '\x7d' :: L))) from by
    simp [List.cons_append]]
  rw [hskip]
  rw [show quoteStr k ++ ':' :: ' ' ::
        (dumpJ i x ++ (dumpObj i kvs ++ '\n' :: sp j ++ '\x7d' :: L))
      = '"' :: (escapeStr k.data ++ ['"'] ++ ':' :: ' ' ::
          (dumpJ i x ++ (dumpObj i kvs ++ '\n' :: sp j ++ '\x7d' :: L))) from by
    simp [quoteStr]]
  simp [quoteStr]

/-!  The codec round-trip on serialized values: the scanner inverts the
serializer.  The fuel hypotheses hold at `loads`'s fuel (input length plus
one), see `loads_dumps` below. -/

mutual

theorem rt_val : ∀ (v : Json) (fuel ind : Nat) (rest : List Char),
    (dumpJ ind v).length < fuel → numSafe rest →
    parseValue fuel (dumpJ ind v ++ rest) = some (v, rest)
  | .null, fuel, ind, rest, hf, _ => by
    cases fuel with
    | zero => omega
    | succ f =>
      rw [show dumpJ ind .null = ['n', 'u', 'l', 'l'] from by simp [dumpJ]]
      exact parseValue_null f rest
  | .bool true, fuel, ind, rest, hf, _ => by
    cases fuel with
    | zero => omega
    | succ f =>
      rw [show dumpJ ind (.bool true) = ['t', 'r', 'u', 'e'] from by simp [dumpJ]]
      exact parseValue_true f rest
  | .bool false, fuel, ind, rest, hf, _ => by
    cases fuel with
    | zero => omega
    | succ f =>
      rw [show dumpJ ind (.bool false) = ['f', 'a', 'l', 's', 'e'] from by
        simp [dumpJ]]
      exact parseValue_false f rest
  | .int n, fuel, ind, rest, hf, hn => by
    cases fuel with
    | zero => omega
    | succ f =>
      rw [show dumpJ ind (.int n) = intDec n from by simp [dumpJ]]
      exact parseValue_int f n rest hn
  | .str s, fuel, ind, rest, hf, _ => by
    cases fuel with
    | zero => omega
    | succ f =>
      rw [show dumpJ ind (.str s) = quoteStr s from by simp [dumpJ]]
      exact parseValue_str f s rest
  | .arr [], fuel, ind, rest, hf, _ => by
    cases fuel with
    | zero => omega
    | succ f =>
      rw [show dumpJ ind (.arr []) = ['[', ']'] from by simp [dumpJ]]
      exact parseValue_arrNil f rest
  | .arr (x :: xs), fuel, ind, rest, hf, _ => by
    cases fuel with
    | zero => omega
    | succ f =>
      have harg : dumpJ ind (.arr (x :: xs)) ++ rest
          = '[' :: '\n' :: sp (ind + 2) ++ (dumpJ (ind + 2) x ++
              (dumpArr (ind + 2) xs ++ '\n' :: sp ind ++ ']' :: rest)) := by
        simp [dumpJ, List.append_assoc]
      have hlen : (dumpJ (ind + 2) x).length + (dumpArr (ind + 2) xs).length + 1
          < f := by
        rw [show dumpJ ind (.arr (x :: xs)) = '[' :: '\n' :: sp (ind + 2)
            ++ dumpJ (ind + 2) x ++ dumpArr (ind + 2) xs ++ '\n' :: sp ind
            ++ [']'] from by simp [dumpJ]] at hf
        simp only [List.length_append, List.length_cons, sp,
          List.length_replicate, List.length_singleton] at hf
        omega
      rw [harg, parseValue_arrStep f x xs (ind + 2) ind rest,
        rt_arr x xs f (ind + 2) ind rest hlen]
      rfl
  | .obj [], fuel, ind, rest, hf, _ => by
    cases fuel with
    | zero => omega
    | succ f =>
      rw [show dumpJ ind (.obj []) = ['\x7b', '\x7d'] from by simp [dumpJ]]
      exact parseValue_objNil f rest
  | .obj ((k, x) :: kvs), fuel, ind, rest, hf, _ => by
    cases fuel with
    | zero => omega
    | succ f =>
      have harg : dumpJ ind (.obj ((k, x) :: kvs)) ++ rest
          = '\x7b' :: '\n' :: sp (ind + 2) ++ (quoteStr k ++ ':' :: ' ' ::
              (dumpJ (ind + 2) x ++ (dumpObj (ind + 2) kvs
                ++ '\n' :: sp ind ++ '\x7d' :: rest))) := by
        simp [dumpJ, List.append_assoc]
      have hlen : (quoteStr k).length + (dumpJ (ind + 2) x).length
          + (dumpObj (ind + 2) kvs).length + 1 < f := by
        rw [show dumpJ ind (.obj ((k, x) :: kvs)) = '\x7b' :: '\n' ::
            sp (ind + 2) ++ quoteStr k ++ ':' :: ' ' :: dumpJ (ind + 2) x
            ++ dumpObj (ind + 2) kvs ++ '\n' :: sp ind ++ ['\x7d'] from by
          simp [dumpJ]] at hf
        simp only [List.length_append, List.length_cons, sp,
          List.length_replicate, List.length_singleton] at hf
        omega
      rw [harg, parseValue_objStep f k x kvs (ind + 2) ind rest,
        rt_obj k x kvs f (ind + 2) ind rest hlen]
      rfl
termination_by v _ _ _ _ _ => sizeOf v

theorem rt_arr : ∀ (x : Json) (xs : List Json) (fuel i j : Nat)
    (rest : List Char),
    (dumpJ i x).length + (dumpArr i xs).length + 1 < fuel →
    parseArrItems fuel (dumpJ i x ++ (dumpArr i xs ++ '\n' :: sp j ++ ']' :: rest))
      = some (x :: xs, rest)
  | x, [], fuel, i, j, rest, hf => by
    cases fuel with
    | zero => omega
    | succ f =>
      have hv := rt_val x f i ('\n' :: sp j ++ ']' :: rest)
        (by omega) ⟨by decide, by decide, by decide, by decide⟩
      simp only [parseArrItems, dumpArr, List.cons_append, List.append_assoc,
        List.nil_append] at hv ⊢
      rw [hv]
      simp [skipWs_nl, skipWs_sp, skipWs_rbracket]
  | x, y :: ys, fuel, i, j, rest, hf => by
    cases fuel with
    | zero => omega
    | succ f =>
      have hlen2 : (dumpJ i y).length + (dumpArr i ys).length + 1 < f := by
        rw [show dumpArr i (y :: ys) = ',' :: '\n' :: sp i ++ dumpJ i y
            ++ dumpArr i ys from by simp [dumpArr]] at hf
        simp only [List.length_append, List.length_cons, sp,
          List.length_replicate] at hf
        omega
      have hv := rt_val x f i
        (',' :: '\n' :: sp i ++ (dumpJ i y ++ (dumpArr i ys ++ '\n' :: sp j
          ++ ']' :: rest)))
        (by omega) ⟨by decide, by decide, by decide, by decide⟩
      have key := rt_arr y ys f i j rest hlen2
      simp only [parseArrItems, dumpArr, List.cons_append, List.append_assoc,
        List.nil_append] at hv key ⊢
      rw [hv]
      simp only [skipWs_comma]
      simp only [skipWs_nl, skipWs_sp, skipWs_dumpJ]
      simp [key]
termination_by x xs _ _ _ _ _ => sizeOf x + sizeOf xs

theorem rt_obj : ∀ (k : String) (x : Json) (kvs : List (String × Json))
    (fuel i j : Nat) (rest : List Char),
    (quoteStr k).length + (dumpJ i x).length + (dumpObj i kvs).length + 1 < fuel →
    parseObjItems fuel (quoteStr k ++ ':' :: ' ' ::
        (dumpJ i x ++ (dumpObj i kvs ++ '\n' :: sp j ++ '\x7d' :: rest)))
      = some ((k, x) :: kvs, rest)
  | k, x, [], fuel, i, j, rest, hf => by
    cases fuel with
    | zero => omega
    | succ f =>
      have hv := rt_val x f i ('\n' :: sp j ++ '\x7d' :: rest)
        (by omega) ⟨by decide, by decide, by decide, by decide⟩
      have hkey := parseStringRest_escape k.data
        ('\x3a' :: ' ' :: (dumpJ i x ++ ('\n' :: sp j ++ '\x7d' :: rest)))
      simp only [parseObjItems, quoteStr, dumpObj, List.cons_append,
        List.append_assoc, List.nil_append] at hv hkey ⊢
      simp only [reduceIte]
      rw [hkey]
      simp only [skipWs_colon]
      simp only [skipWs_space, skipWs_dumpJ]
      rw [hv]
      simp [skipWs_nl, skipWs_sp, skipWs_rbrace, string_mk_data]
  | k, x, (k2, x2) :: kvs, fuel, i, j, rest, hf => by
    cases fuel with
    | zero => omega
    | succ f =>
      have hlen2 : (quoteStr k2).length + (dumpJ i x2).length
          + (dumpObj i kvs).length + 1 < f := by
        rw [show dumpObj i ((k2, x2) :: kvs) = ',' :: '\n' :: sp i
            ++ quoteStr k2 ++ ':' :: ' ' :: dumpJ i x2 ++ dumpObj i kvs from by
          simp [dumpObj]] at hf
        simp only [List.length_append, List.length_cons, sp,
          List.length_replicate] at hf
        omega
      have hv := rt_val x f i
        (',' :: '\n' :: sp i ++ (quoteStr k2 ++ ':' :: ' ' ::
          (dumpJ i x2 ++ (dumpObj i kvs ++ '\n' :: sp j ++ '\x7d' :: rest))))
        (by omega) ⟨by decide, by decide, by decide, by decide⟩
      have key := rt_obj k2 x2 kvs f i j rest hlen2
      have hkey := parseStringRest_escape k.data
        ('\x3a' :: ' ' :: (dumpJ i x ++ (',' :: '\n' :: sp i ++ (quoteStr k2
          ++ ':' :: ' ' :: (dumpJ i x2 ++ (dumpObj i kvs ++ '\n' :: sp j
            ++ '\x7d' :: rest))))))
      simp only [parseObjItems, quoteStr, dumpObj, List.cons_append,
        List.append_assoc, List.nil_append] at hv key hkey ⊢
      simp only [reduceIte]
      rw [hkey]
      simp only [skipWs_colon]
      simp only [skipWs_space, skipWs_dumpJ]
      rw [hv]
      simp only [skipWs_comma]
      simp only [skipWs_nl, skipWs_sp, skipWs_quote]
      simp [key, string_mk_data]
termination_by k x kvs _ _ _ _ _ => sizeOf x + sizeOf kvs


end

/-- Round-trip at the top level: parsing the serialized text of any value
recovers the value. -/
theorem loads_dumps (v : Json) : loads (dumps v) = some v := by
  obtain ⟨c, t, heq, hws, -, -⟩ := dumpJ_cons 0 v
  have hskip : skipWs (dumps v).data = dumpJ 0 v := by
    show skipWs (dumpJ 0 v) = dumpJ 0 v
    rw [heq]
    exact skipWs_cons_false hws t
  have hv := rt_val v ((dumpJ 0 v).length + 1) 0 [] (by omega) trivial
  rw [List.append_nil] at hv
  simp only [loads, hskip, hv]
  rfl

/-!  Facts about the cookie-format normalizer. -/

theorem subCookieAux_nil : ∀ f : Nat, subCookieAux f [] = [] := by
  intro f
  cases f with
  | zero => rfl
  | succ f => rfl

/-- Where the pattern matches nowhere, the substitution is the identity
(`re.sub` copies the input through). -/
theorem subCookieAux_noMatch : ∀ (f : Nat) (s : List Char),
    hasCookieMatch s = false → subCookieAux f s = s := by
  intro f
  induction f with
  | zero => intro s _; rfl
  | succ f ih =>
    intro s h
    cases s with
    | nil => rfl
    | cons c rest =>
      simp only [hasCookieMatch, Bool.or_eq_false_iff] at h
      have hnone : tryMatchAt (c :: rest) = none := by
        cases hm : tryMatchAt (c :: rest) with
        | none => rfl
        | some v => rw [hm] at h; simp at h
      simp only [subCookieAux, hnone, ih rest h.2]

theorem convert_noMatch (s : String) (h : hasCookieMatch s.data = false) :
    convert_cookie_format s = s := by
  show (⟨subCookieAux s.data.length s.data⟩ : String) = s
  rw [subCookieAux_noMatch _ _ h]

/-- The non-greedy value scan stops at the first closing quote. -/
theorem scanVal_closes : ∀ (v : List Char) (q : Char) (rest : List Char),
    q ∉ v → '\n' ∉ v → scanVal q (v ++ q :: rest) = some (v, rest) := by
  intro v
  induction v with
  | nil =>
    intro q rest _ _
    simp [scanVal]
  | cons c cs ih =>
    intro q rest hq hn
    have hcq : ¬c = q := fun he => hq (he ▸ List.mem_cons_self ..)
    have hcn : ¬c = '\n' := fun he => hn (he ▸ List.mem_cons_self ..)
    have htq : q ∉ cs := fun hm => hq (List.mem_cons_of_mem _ hm)
    have htn : '\n' ∉ cs := fun hm => hn (List.mem_cons_of_mem _ hm)
    simp [scanVal, hcq, hcn, ih q rest htq htn]

/-- One whole match of the pattern `-b<space><quote>value<quote>`, and the
rewrite it produces. -/
theorem subCookieAux_bFlag (f : Nat) (q : Char) (hq : q = '\'' ∨ q = '"')
    (v : List Char) (hqv : q ∉ v) (hnv : '\n' ∉ v) :
    subCookieAux (f + 1) ('-' :: 'b' :: ' ' :: q :: (v ++ [q]))
      = cookieRepl q v := by
  have hqws : pyWs q = false := by
    rcases hq with rfl | rfl <;> decide
  have hqeq : ¬q = '=' := by
    rcases hq with rfl | rfl <;> decide
  have hscan : scanVal q (v ++ [q]) = some (v, []) := by
    have := scanVal_closes v q [] hqv hnv
    simpa using this
  have hmatch : tryMatchAt ('-' :: 'b' :: ' ' :: q :: (v ++ [q]))
      = some (q, v, []) := by
    show (matchFlag ('-' :: 'b' :: ' ' :: q :: (v ++ [q]))).bind matchAfterFlag
      = some (q, v, [])
    rw [show matchFlag ('-' :: 'b' :: ' ' :: q :: (v ++ [q]))
        = some (' ' :: q :: (v ++ [q])) from rfl]
    simp only [Option.some_bind, matchAfterFlag]
    rw [show (' ' :: q :: (v ++ [q])).dropWhile pyWs
        = (q :: (v ++ [q])).dropWhile pyWs from by
      simp [List.dropWhile_cons, show pyWs ' ' = true from by decide]]
    rw [show (q :: (v ++ [q])).dropWhile pyWs = q :: (v ++ [q]) from by
      simp [List.dropWhile_cons, hqws]]
    simp only [if_neg hqeq]
    rw [show (q :: (v ++ [q])).dropWhile pyWs = q :: (v ++ [q]) from by
      simp [List.dropWhile_cons, hqws]]
    simp [hq, hscan]
  simp only [subCookieAux, hmatch, subCookieAux_nil, List.append_nil]

/-- Same for the long flag with `=` and no spaces:
`--cookie=<quote>value<quote>`. -/
theorem subCookieAux_cookieFlag (f : Nat) (q : Char) (hq : q = '\'' ∨ q = '"')
    (v : List Char) (hqv : q ∉ v) (hnv : '\n' ∉ v) :
    subCookieAux (f + 1)
        ('-' :: '-' :: 'c' :: 'o' :: 'o' :: 'k' :: 'i' :: 'e' :: '=' :: q ::
          (v ++ [q]))
      = cookieRepl q v := by
  have hqws : pyWs q = false := by
    rcases hq with rfl | rfl <;> decide
  have hscan : scanVal q (v ++ [q]) = some (v, []) := by
    have := scanVal_closes v q [] hqv hnv
    simpa using this
  have hmatch : tryMatchAt ('-' :: '-' :: 'c' :: 'o' :: 'o' :: 'k' :: 'i' ::
      'e' :: '=' :: q :: (v ++ [q])) = some (q, v, []) := by
    show (matchFlag _).bind matchAfterFlag = some (q, v, [])
    rw [show matchFlag ('-' :: '-' :: 'c' :: 'o' :: 'o' :: 'k' :: 'i' :: 'e' ::
        '=' :: q :: (v ++ [q])) = some ('=' :: q :: (v ++ [q])) from rfl]
    simp only [Option.some_bind, matchAfterFlag]
    rw [show ('=' :: q :: (v ++ [q])).dropWhile pyWs = '=' :: q :: (v ++ [q])
        from by simp [List.dropWhile_cons, show pyWs '=' = false from by decide]]
    simp only [reduceIte]
    rw [show (q :: (v ++ [q])).dropWhile pyWs = q :: (v ++ [q]) from by
      simp [List.dropWhile_cons, hqws]]
    simp [hq, hscan]
  simp only [subCookieAux, hmatch, subCookieAux_nil, List.append_nil]

theorem string_mk_eq (l : List Char) (t : String) (h : l = t.data) :
    (⟨l⟩ : String) = t := by
  subst h
  rfl

/-!  The claims. -/

/-- C1, counterexample: a present but empty body string selects neither a
JSON payload nor a raw payload (the source's `if data:` is false on `""`),
so the claim's "exactly one of the two payloads" fails at the input `""`. -/
theorem claim1_counterexample :
    ¬(((classifyBody (some "")).1.isSome = true
        ∧ (classifyBody (some "")).2.isNone = true)
      ∨ ((classifyBody (some "")).1.isNone = true
        ∧ (classifyBody (some "")).2.isSome = true)) := by
  decide

/-- C1 (amended): for every parsed request whose body string is present and
non-empty, the classifier selects exactly one of the JSON payload (the
decoded value, when strict decoding succeeds) and the raw payload (the
original string verbatim, otherwise); and concretely the body
`{"a":1}` classifies as the JSON payload `{a: 1}` while `a=1&b=2`
classifies as the raw payload `a=1&b=2` unchanged. -/
theorem claim1_body_classification :
    (∀ s : String, s ≠ "" →
      (∃ j, loads s = some j ∧ classifyBody (some s) = (some j, none)) ∨
        (loads s = none ∧ classifyBody (some s) = (none, some s)))
    ∧ classifyBody (some "\x7b\"a\":1\x7d")
        = (some (.obj [("a", .int 1)]), none)
    ∧ classifyBody (some "a=1&b=2") = (none, some "a=1&b=2") := by
  refine ⟨?_, rfl, rfl⟩
  intro s hs
  cases h : loads s with
  | some j =>
    left
    exact ⟨j, rfl, by simp [classifyBody, hs, h]⟩
  | none =>
    right
    exact ⟨rfl, by simp [classifyBody, hs, h]⟩

theorem claim1_witness :
    (∃ j, loads "a=1&b=2" = some j ∧
        classifyBody (some "a=1&b=2") = (some j, none)) ∨
      (loads "a=1&b=2" = none ∧
        classifyBody (some "a=1&b=2") = (none, some "a=1&b=2")) :=
  claim1_body_classification.1 "a=1&b=2" (by decide)

/-- C9: a present but falsy (empty) body string produces no payload at all,
exactly as an absent body does. -/
theorem claim9_empty_body_no_payload :
    classifyBody (some "") = (none, none) ∧ classifyBody none = (none, none) :=
  ⟨rfl, rfl⟩

/-- C2, counterexample: the normalizer is not idempotent.  When a rewritten
cookie value itself contains the short-form pattern, the second application
rewrites inside the first rewrite's output: on `-b "x-b 'y'z"` one
application gives `-H "Cookie: x-b 'y'z"`, a second application turns that
into `-H "Cookie: x-H 'Cookie: y'z"`. -/
theorem claim2_counterexample :
    convert_cookie_format (convert_cookie_format "-b \"x-b 'y'z\"")
      ≠ convert_cookie_format "-b \"x-b 'y'z\"" := by
  decide

/-- C2 (amended): the normalizer is a no-op on any string the short-form
pattern does not match (in particular on already-normalized input), and is
therefore idempotent on every input whose once-normalized output contains
no residual short-form occurrence; full idempotence fails (see the
counterexample). -/
theorem claim2_normalizer_noop :
    (∀ s : String, hasCookieMatch s.data = false → convert_cookie_format s = s)
    ∧ ∀ s : String, hasCookieMatch (convert_cookie_format s).data = false →
        convert_cookie_format (convert_cookie_format s) = convert_cookie_format s :=
  ⟨convert_noMatch, fun _ h => convert_noMatch _ h⟩

theorem claim2_witness :
    convert_cookie_format (convert_cookie_format "-b 'session=abc123'")
      = convert_cookie_format "-b 'session=abc123'" :=
  claim2_normalizer_noop.2 "-b 'session=abc123'" (by decide)

/-- C3: the normalizer preserves the quote character of each rewritten
occurrence: a single-quoted short-form cookie value becomes a single-quoted
`Cookie:` header and a double-quoted one a double-quoted header, for every
value free of the delimiting quote and of newlines; instantiating the two
parts at `session=abc123` and `x=1` gives the claim's concrete examples. -/
theorem claim3_quote_preservation (v w : String)
    (h1 : '\'' ∉ v.data) (h2 : '\n' ∉ v.data)
    (h3 : '"' ∉ w.data) (h4 : '\n' ∉ w.data) :
    convert_cookie_format ("-b '" ++ v ++ "'") = "-H 'Cookie: " ++ v ++ "'"
    ∧ convert_cookie_format ("--cookie=\"" ++ w ++ "\"")
      = "-H \"Cookie: " ++ w ++ "\"" := by
  constructor
  · have hdata : ("-b '" ++ v ++ "'").data
        = '-' :: 'b' :: ' ' :: '\'' :: (v.data ++ ['\'']) := by
      rw [String.data_append, String.data_append,
        show ("-b '" : String).data = ['-', 'b', ' ', '\''] from rfl,
        show ("'" : String).data = ['\''] from rfl]
      simp
    show (⟨subCookieAux ("-b '" ++ v ++ "'").data.length
        ("-b '" ++ v ++ "'").data⟩ : String) = _
    rw [hdata,
      show ('-' :: 'b' :: ' ' :: '\'' :: (v.data ++ ['\''])).length
        = (4 + v.data.length) + 1 from by simp; omega,
      subCookieAux_bFlag _ '\'' (Or.inl rfl) v.data h1 h2]
    apply string_mk_eq
    rw [String.data_append, String.data_append,
      show ("-H 'Cookie: " : String).data
        = ['-', 'H', ' ', '\'', 'C', 'o', 'o', 'k', 'i', 'e', ':', ' '] from rfl,
      show ("'" : String).data = ['\''] from rfl]
    simp [cookieRepl]
  · have hdata : ("--cookie=\"" ++ w ++ "\"").data
        = '-' :: '-' :: 'c' :: 'o' :: 'o' :: 'k' :: 'i' :: 'e' :: '=' :: '"' ::
            (w.data ++ ['"']) := by
      rw [String.data_append, String.data_append,
        show ("--cookie=\"" : String).data
          = ['-', '-', 'c', 'o', 'o', 'k', 'i', 'e', '=', '"'] from rfl,
        show ("\"" : String).data = ['"'] from rfl]
      simp
    show (⟨subCookieAux ("--cookie=\"" ++ w ++ "\"").data.length
        ("--cookie=\"" ++ w ++ "\"").data⟩ : String) = _
    rw [hdata,
      show ('-' :: '-' :: 'c' :: 'o' :: 'o' :: 'k' :: 'i' :: 'e' :: '=' :: '"' ::
          (w.data ++ ['"'])).length = (10 + w.data.length) + 1 from by
        simp; omega,
      subCookieAux_cookieFlag _ '"' (Or.inr rfl) w.data h3 h4]
    apply string_mk_eq
    rw [String.data_append, String.data_append,
      show ("-H \"Cookie: " : String).data
        = ['-', 'H', ' ', '"', 'C', 'o', 'o', 'k', 'i', 'e', ':', ' '] from rfl,
      show ("\"" : String).data = ['"'] from rfl]
    simp [cookieRepl]

theorem claim3_witness :
    convert_cookie_format ("-b '" ++ "session=abc123" ++ "'")
      = "-H 'Cookie: " ++ "session=abc123" ++ "'"
    ∧ convert_cookie_format ("--cookie=\"" ++ "x=1" ++ "\"")
      = "-H \"Cookie: " ++ "x=1" ++ "\"" :=
  claim3_quote_preservation "session=abc123" "x=1"
    (by decide) (by decide) (by decide) (by decide)

/-- C10: the pattern has no token boundaries.  In the input below `-b`
occurs only as the tail of the longer word `id-b`, inside a single-quoted
header value, and there is no standalone ` -b ` token anywhere; the
normalizer still rewrites that embedded occurrence into the
`-H "Cookie: ..."` form. -/
theorem claim10_no_token_boundary :
    convert_cookie_format "curl 'https://e.com/x' -H 'Trace: id-b \"t=1\"'"
      = "curl 'https://e.com/x' -H 'Trace: id-H \"Cookie: t=1\"'"
    ∧ ¬(" -b ".data <:+:
        "curl 'https://e.com/x' -H 'Trace: id-b \"t=1\"'".data) := by
  decide

/-- C4: on a network failure or a non-2xx status, `fetch_from_curl` returns
the null result, writes no file (a pre-existing file at the output path is
untouched, since `written = none` is the only write the model performs),
no exception escapes (the model is a total function), and the error
together with the first 500 characters of any available response text goes
only to the diagnostic lines. -/
theorem claim4_failure_containment (parse : String → Option ParsedContext)
    (transport : RequestParams → TransportOutcome) (cmd out : String)
    (p : ParsedContext) (hp : parse cmd = some p) :
    (∀ msg respText, transport (buildRequest p) = .netErr msg respText →
      (fetch_from_curl parse transport cmd out).retVal = none ∧
      (fetch_from_curl parse transport cmd out).written = none ∧
      ("request failed: " ++ msg) ∈ (fetch_from_curl parse transport cmd out).diag ∧
      ∀ t, respText = some t →
        ("response text (first 500): " ++ t.take 500)
          ∈ (fetch_from_curl parse transport cmd out).diag) ∧
    (∀ status body, transport (buildRequest p) = .resp status body →
      http2xx status = false →
      (fetch_from_curl parse transport cmd out).retVal = none ∧
      (fetch_from_curl parse transport cmd out).written = none ∧
      ("response text (first 500): " ++ body.take 500)
        ∈ (fetch_from_curl parse transport cmd out).diag) := by
  constructor
  · intro msg respText ht
    simp only [fetch_from_curl, hp, ht]
    refine ⟨by trivial, by trivial, by simp, ?_⟩
    intro t h
    subst h
    simp
  · intro status body ht h2
    refine ⟨?_, ?_, ?_⟩ <;>
      simp [fetch_from_curl, hp, ht, h2]

def parseFixed : String → Option ParsedContext := fun _ =>
  some ⟨"https://api.test/x", none, none, none, none⟩

def transportRefused : RequestParams → TransportOutcome := fun _ =>
  .netErr "connection refused" (some "upstream error page")

theorem claim4_witness :
    (fetch_from_curl parseFixed transportRefused "curl x" "out.json").retVal = none ∧
    (fetch_from_curl parseFixed transportRefused "curl x" "out.json").written = none ∧
    ("request failed: " ++ "connection refused")
      ∈ (fetch_from_curl parseFixed transportRefused "curl x" "out.json").diag ∧
    ("response text (first 500): " ++ ("upstream error page").take 500)
      ∈ (fetch_from_curl parseFixed transportRefused "curl x" "out.json").diag := by
  have h := (claim4_failure_containment parseFixed transportRefused "curl x"
    "out.json" _ rfl).1 "connection refused" (some "upstream error page") rfl
  exact ⟨h.1, h.2.1, h.2.2.1, h.2.2.2 _ rfl⟩

/-- C5: a successful (2xx) response whose body is not valid JSON is
normalized to exactly the two-field fallback record
`{content: <raw text>, status_code: <status>}`, which becomes the return
value and the serialized file contents, with no other transformation. -/
theorem claim5_fallback_record (parse : String → Option ParsedContext)
    (transport : RequestParams → TransportOutcome) (cmd out : String)
    (p : ParsedContext) (status : Nat) (body : String)
    (hp : parse cmd = some p)
    (ht : transport (buildRequest p) = .resp status body)
    (h2 : http2xx status = true)
    (hj : loads body = none) :
    (fetch_from_curl parse transport cmd out).retVal
      = some (.obj [("content", .str body), ("status_code", .int status)]) ∧
    (fetch_from_curl parse transport cmd out).written
      = some (out,
          dumps (.obj [("content", .str body), ("status_code", .int status)])) := by
  constructor <;> simp [fetch_from_curl, hp, ht, h2, hj]

def transportHtml : RequestParams → TransportOutcome := fun _ =>
  .resp 200 "<html>...</html>"

theorem claim5_witness :
    (fetch_from_curl parseFixed transportHtml "curl x" "out.json").retVal
      = some (.obj [("content", .str "<html>...</html>"),
          ("status_code", .int 200)]) ∧
    (fetch_from_curl parseFixed transportHtml "curl x" "out.json").written
      = some ("out.json",
          dumps (.obj [("content", .str "<html>...</html>"),
            ("status_code", .int 200)])) :=
  claim5_fallback_record parseFixed transportHtml "curl x" "out.json"
    _ 200 "<html>...</html>" rfl rfl (by decide) rfl

/-- C6: persistence round-trips.  Serializing any ResultPayload with the
indented, non-ASCII-preserving writer and parsing the file text back as
structured data recovers the same value (numbers are integers in the
embedding, so the format's numeric normalization is the identity here). -/
theorem claim6_persistence_roundtrip (v : Json) : loads (dumps v) = some v :=
  loads_dumps v

/-- C7: invoked without an explicit output path, `fetch_from_curl` writes
the ResultPayload to the file `output.json`. -/
theorem claim7_default_output (parse : String → Option ParsedContext)
    (transport : RequestParams → TransportOutcome) (cmd : String)
    (p : ParsedContext) (status : Nat) (body : String)
    (hp : parse cmd = some p)
    (ht : transport (buildRequest p) = .resp status body)
    (h2 : http2xx status = true) :
    ∃ content, (fetch_from_curl parse transport cmd).written
      = some ("output.json", content) := by
  refine ⟨dumps (match loads body with
    | some j => j
    | none => Json.obj [("content", .str body), ("status_code", .int status)]), ?_⟩
  simp only [fetch_from_curl, hp, ht, h2, if_true]

theorem claim7_witness :
    ∃ content, (fetch_from_curl parseFixed transportHtml "curl x").written
      = some ("output.json", content) :=
  claim7_default_output parseFixed transportHtml "curl x"
    _ 200 "<html>...</html>" rfl rfl (by decide)

/-- C8: when the parser reports no HTTP method, the transport is invoked
with method `GET`: the one request `fetch_from_curl` issues is the built
request, whose method field resolves to `"GET"`. -/
theorem claim8_default_method_get (parse : String → Option ParsedContext)
    (transport : RequestParams → TransportOutcome) (cmd out : String)
    (p : ParsedContext) (hp : parse cmd = some p) (hm : p.method = none) :
    (fetch_from_curl parse transport cmd out).requested = some (buildRequest p)
    ∧ (buildRequest p).method = "GET" := by
  constructor
  · cases ht : transport (buildRequest p) with
    | netErr msg r => simp [fetch_from_curl, hp, ht]
    | resp st body =>
      by_cases h2 : http2xx st <;> simp [fetch_from_curl, hp, ht, h2]
  · simp [buildRequest, resolveMethod, hm]

theorem claim8_witness :
    (fetch_from_curl parseFixed transportHtml "curl x" "out.json").requested
      = some (buildRequest ⟨"https://api.test/x", none, none, none, none⟩)
    ∧ (buildRequest
        (⟨"https://api.test/x", none, none, none, none⟩ : ParsedContext)).method
      = "GET" :=
  claim8_default_method_get parseFixed transportHtml "curl x" "out.json"
    _ rfl rfl
